import Mathlib

/-!
Verification of the MindGen iteration/convergence control loop.

This file gives a shallow embedding, in Lean 4, of the core orchestration
code of the MindGen repository:

* `services/quality_metrics.py` — quality aggregation and convergence
  detection (`calculate_quality_score`, `_calculate_weighted_score`,
  `detect_convergence`);
* `services/workflow_manager.py` — the round state machine
  (`run_workflow`, `_has_critical_errors`, `_generate_final_plan`,
  `_handle_workflow_error`, `_store_debug`, `get_debug_info`);
* `services/agents/teaching_plan_agent.py` (`generate_plans`),
  `services/agents/cross_analysis_agent.py` (`analyze_plans`,
  `_parse_analysis_result`, `_prepare_analysis_context`) and
  `services/agents/improvement_agent.py` (`improve_plans`,
  `_extract_feedback_for_model`).

Modelling conventions:

* Python floats are modelled as exact rationals (`ℚ`).
* Python dicts are modelled as ordered association lists
  (`List (String × _)`), preserving insertion order; `dict.get` with a
  default is `dget · · |>.getD _`.  Heterogeneous result dicts are
  modelled as structures whose list/string fields default to empty when
  the Python dict omits the key (the code only reads those keys behind a
  `status == 'success'` guard or with a `.get` default, so the defaults
  are never observed in a way that differs from the Python semantics).
* External LLM calls (LangChain invocations in `llm_service`) are the
  system boundary; they are modelled as oracle functions returning
  `Except String _`, an `Except.error` standing for a raised exception,
  which the agents catch and turn into error dicts exactly as the
  Python `except` blocks do.
* Wall-clock durations attached to results (`duration` keys) and the
  human-readable `summary` string of the final plan are not modelled;
  no control decision reads them.  `time.time()` timestamps on debug
  entries are modelled by a logical clock in the state.
* Socket.IO emissions are modelled as an event trace list; emission is
  fire-and-forget in the source and never affects control flow.
-/

/-- One per-backend plan dict, as built by `generate_plans` /
`improve_plans` (`status`, `content`, `structured_data`, `model`,
optionally `improvement_applied`, and `message` on error dicts). -/
structure Plan where
  status : String
  content : String
  structured_data : String
  model : String
  improvement_applied : Option Bool
  message : Option String
deriving DecidableEq, Repr

/-- Ordered association map of backend id to plan dict, modelling the
Python `plans` dict (insertion ordered). -/
abbrev Plans := List (String × Plan)

/-- One analysis report dict, as built by `_parse_analysis_result`.  The
`plan_analysis` field models the *optional* `plan_analysis` key read by
`_generate_final_plan` via `report.get('plan_analysis', {})`; a missing
key is the empty association list. -/
structure Report where
  analyst : String
  status : String
  strengths : List String
  weaknesses : List String
  suggestions : List String
  overall_score : ℚ
  comparison : String
  quality_metrics : List (String × ℚ)
  plan_analysis : List (String × List (String × ℚ))
  message : Option String
deriving DecidableEq, Repr

/-- Ordered association map of analyst id to analysis report. -/
abbrev Reports := List (String × Report)

/-- Association-list lookup, modelling Python `dict[k]` / `dict.get(k)`:
first binding of the key wins (dict keys are unique anyway). -/
def dget {β : Type} (l : List (String × β)) (k : String) : Option β :=
  match l with
  | [] => none
  | (k', v) :: t => if k' = k then some v else dget t k

theorem dget_mem {β : Type} {l : List (String × β)} {k : String} {v : β}
    (h : dget l k = some v) : (k, v) ∈ l := by
  induction l with
  | nil => simp [dget] at h
  | cons hd t ih =>
    rw [dget] at h
    split at h
    · rename_i heq
      cases h
      exact List.mem_cons.mpr (Or.inl (by cases hd; simp_all))
    · exact List.mem_cons_of_mem _ (ih h)

/-- The three backend ids hard-wired in all three agents
(`['qwen', 'deepseek', 'personal_chatgpt']`). -/
def modelNames : List String := ["qwen", "deepseek", "personal_chatgpt"]

/- ## QualityMetrics (services/quality_metrics.py) -/

/-- `QualityMetrics.weights`: fixed metric weights. -/
def qualityWeights : List (String × ℚ) :=
  [("curriculum_alignment", 25/100), ("engagement_factor", 20/100),
   ("assessment_quality", 20/100), ("innovation_score", 15/100),
   ("practicality", 20/100)]

/-- `QualityMetrics._calculate_weighted_score`: weighted sum over the
fixed weights of the metrics actually present, normalised by the total
weight present; `0` when no weighted metric is present. -/
def calculateWeightedScore (metrics : List (String × ℚ)) : ℚ :=
  let acc := qualityWeights.foldl
    (fun (acc : ℚ × ℚ) mw =>
      match dget metrics mw.1 with
      | some v => (acc.1 + v * mw.2, acc.2 + mw.2)
      | none => acc)
    ((0 : ℚ), (0 : ℚ))
  if acc.2 > 0 then acc.1 / acc.2 else 0

/-- `QualityMetrics.calculate_quality_score`: mean of the weighted
scores of the successful reports; `0.0` when there are none
(`np.mean(scores) if scores else 0.0`). -/
def calculateQualityScore (analysis_reports : Reports) : ℚ :=
  let scores := (analysis_reports.filter
    (fun r => r.2.status = "success")).map
    (fun r => calculateWeightedScore r.2.quality_metrics)
  if scores = [] then 0 else scores.sum / scores.length

/-- The list of absolute consecutive deltas
`[abs(h[i] - h[i-1]) for i in range(1, len(h))]`. -/
def qualityDeltas (quality_history : List ℚ) : List ℚ :=
  quality_history.zipWith (fun prev next => |next - prev|)
    quality_history.tail

/-- `QualityMetrics.detect_convergence`: `False` below 3 points, else
all of the last two consecutive deltas strictly below the threshold
(default `0.01`). -/
def detectConvergence (quality_history : List ℚ)
    (threshold : ℚ := 1/100) : Bool :=
  if quality_history.length < 3 then false
  else
    let recent := qualityDeltas quality_history
    (recent.drop (recent.length - 2)).all
      (fun improvement => decide (improvement < threshold))

example : detectConvergence [1/2, 51/100, 103/200] (1/100) = false := by
  simp [detectConvergence, qualityDeltas, abs_lt]
  norm_num

example : detectConvergence [1/2, 502/1000, 503/1000] (1/100) = true := by
  simp [detectConvergence, qualityDeltas, abs_lt]
  norm_num

example : calculateQualityScore [] = 0 := by simp [calculateQualityScore]

/- ## Agents (services/agents/) -/

/-- The error dict `{'status': 'error', 'message': str(e), 'model': m}`
built by the agents' `except` blocks. -/
def errPlan (model msg : String) : Plan :=
  { status := "error", content := "", structured_data := "", model := model,
    improvement_applied := none, message := some msg }

/-- A success dict built by `generate_plans`.  The pydantic artifact and
its `json()` serialisation are both modelled by the artifact string. -/
def successPlan (art model : String) : Plan :=
  { status := "success", content := art, structured_data := art,
    model := model, improvement_applied := none, message := none }

/-- The job descriptor accepted by the transport layer (`app.py`
validates `subject`, `grade`, `objectives` non-empty and
`max_rounds ∈ [1,10]`) and passed to `run_workflow` as `teacher_input`. -/
structure TeacherInput where
  subject : String
  grade : String
  objectives : String
  max_rounds : Nat
deriving DecidableEq, Repr

/-- `TeachingPlanAgent.generate_plans`: one LLM call per backend, a
raised exception becoming an error dict.  `gen` is the
`llm_service.generate_teaching_plan` oracle taking the model name,
subject, grade and objectives. -/
def generatePlans (gen : String → String → String → String → Except String String)
    (teacher_input : TeacherInput) : Plans :=
  modelNames.map fun m =>
    match gen m teacher_input.subject teacher_input.grade teacher_input.objectives with
    | Except.ok art => (m, successPlan art m)
    | Except.error e => (m, errPlan m e)

/-- Substring test, modelling Python `pat in s` (for non-empty `pat`). -/
def containsSub (s pat : String) : Bool := (s.splitOn pat).length > 1

/-- The error report dict built by `analyze_plans`' `except` block. -/
def errReport (analyst msg : String) : Report :=
  { analyst := analyst, status := "error", strengths := [], weaknesses := [],
    suggestions := [], overall_score := 0, comparison := "",
    quality_metrics := [], plan_analysis := [], message := some msg }

/-- `CrossAnalysisAgent._parse_analysis_result`: keyword-scan of the
agent's final answer into a structured success report.  `score_match`
models the result of the `(\d+(?:\.\d+)?)/10` regex search on the final
answer.  Note that no `plan_analysis` key is ever written. -/
def parseAnalysisResult (final_answer : String) (score_match : Option ℚ)
    (analyst_model : String) : Report :=
  let overall : ℚ := match score_match with
    | some s => s
    | none => 15/2
  { analyst := analyst_model,
    status := "success",
    strengths :=
      if containsSub final_answer.toLower ("strengths") then
        [("Identified strengths in the plan")] else [],
    weaknesses :=
      if containsSub final_answer.toLower ("weaknesses") then
        [("Areas for improvement identified")] else [],
    suggestions :=
      if containsSub final_answer.toLower ("suggestions") then
        [("Specific improvement suggestions provided")] else [],
    overall_score := overall,
    comparison := "Analysis by " ++ analyst_model ++ " based on provided plans.",
    quality_metrics :=
      [("curriculum_alignment", 8/10), ("engagement_factor", 7/10),
       ("assessment_quality", overall / 10), ("innovation_score", 6/10),
       ("practicality", 75/100)],
    plan_analysis := [],
    message := none }

/-- `CrossAnalysisAgent._prepare_analysis_context`: concatenation of the
successful plans' contents, labelled by upper-cased backend id. -/
def prepareAnalysisContext (plans : Plans) : String :=
  "\n\n".intercalate
    ((plans.filter (fun p => p.2.status = "success")).map
      (fun p => p.1.toUpper ++ " Plan: " ++ p.2.content))

/-- `CrossAnalysisAgent.analyze_plans`: every backend analyses the
*other* backends' plans; a raised exception becomes an error report.
`llm` is the agent-executor oracle taking the analyst id and the
prepared context and returning the final answer text together with the
regex score match. -/
def analyzePlans (llm : String → String → Except String (String × Option ℚ))
    (plans : Plans) : Reports :=
  modelNames.map fun analyst_model =>
    let other_plans := plans.filter (fun p => p.1 ≠ analyst_model)
    match llm analyst_model (prepareAnalysisContext other_plans) with
    | Except.ok (out, sm) => (analyst_model, parseAnalysisResult out sm analyst_model)
    | Except.error e => (analyst_model, errReport analyst_model e)

/-- `ImprovementAgent._extract_feedback_for_model`: suggestions plus
`Address: <weakness>` lines from every *other* analyst's successful
report, joined by blank lines; the empty string when nothing applies. -/
def extractFeedbackForModel (model_name : String)
    (analysis_reports : Reports) : String :=
  let feedback_parts := analysis_reports.foldl
    (fun acc ar =>
      if ar.2.status = "success" ∧ ar.1 ≠ model_name then
        acc ++ ar.2.suggestions ++ ar.2.weaknesses.map (fun w => "Address: " ++ w)
      else acc)
    []
  if feedback_parts = [] then "" else "\n\n".intercalate feedback_parts

/-- `ImprovementAgent.improve_plans`: each backend with non-empty
feedback and a successful prior plan is revised through the LLM
(`revise` is the `llm_service.improve_teaching_plan` oracle); otherwise
the prior plan is passed through with `improvement_applied := false`.
A missing key or raised exception becomes an error dict. -/
def improvePlans (revise : String → String → String → Except String String)
    (plans : Plans) (analysis_reports : Reports) : Plans :=
  modelNames.map fun m =>
    let feedback := extractFeedbackForModel m analysis_reports
    if feedback ≠ "" then
      match dget plans m with
      | none => (m, errPlan m ("'" ++ m ++ "'"))
      | some p =>
        if p.status = "success" then
          match revise m p.structured_data feedback with
          | Except.ok art =>
            (m, { status := "success", content := art, structured_data := art,
                  model := m, improvement_applied := some true, message := none })
          | Except.error e => (m, errPlan m e)
        else (m, { p with improvement_applied := some false })
    else
      match dget plans m with
      | none => (m, errPlan m ("'" ++ m ++ "'"))
      | some p => (m, { p with improvement_applied := some false })

/- ## WorkflowManager (services/workflow_manager.py) -/

/-- The final artifact returned by `_generate_final_plan`: either a
success dict (`content`, `model`, `quality_score`; the human-readable
`summary` echo of the same data is not modelled) or the error dict
`{'status': 'error', 'message': ...}`. -/
inductive FinalPlan where
  | ok (content : String) (model : String) (quality_score : ℚ)
  | failure (message : String)
deriving DecidableEq, Repr

/-- A payload stored by `_store_debug` (the raw output of one phase). -/
inductive DebugPayload where
  | plans (p : Plans)
  | reports (r : Reports)
deriving DecidableEq, Repr

/-- One entry of `self.debug_data[component]`; `time.time()` is
modelled by a logical clock. -/
structure DebugEntry where
  timestamp : Nat
  data : DebugPayload
deriving DecidableEq, Repr

/-- The mutable state owned by `WorkflowManager`: the `self.status`
dict, the `self.debug_data` dict and the logical clock. -/
structure WMState where
  current_iteration : Nat
  max_iterations : Nat
  is_running : Bool
  current_quality_score : ℚ
  plans : Plans
  analysis_reports : Reports
  final_plan : Option FinalPlan
  error : Option String
  debug_data : List (String × List DebugEntry)
  clock : Nat
deriving DecidableEq, Repr

/-- The state built by `WorkflowManager.__init__` (and by
`reset_workflow`) for a configured iteration bound. -/
def initState (max_iterations : Nat) : WMState :=
  { current_iteration := 0, max_iterations := max_iterations,
    is_running := false, current_quality_score := 0, plans := [],
    analysis_reports := [], final_plan := none, error := none,
    debug_data :=
      [("teaching_plan_agent", []), ("cross_analysis_agent", []),
       ("improvement_agent", []), ("knowledge_memory_agent", [])],
    clock := 0 }

/-- `WorkflowManager._store_debug`: append a timestamped entry to the
component's history (callers only use the four initialised keys). -/
def storeDebug (st : WMState) (component : String) (payload : DebugPayload) :
    WMState :=
  { st with
    debug_data := st.debug_data.map
      (fun p =>
        if p.1 = component then
          (p.1, p.2 ++ [{ timestamp := st.clock, data := payload }])
        else p),
    clock := st.clock + 1 }

/-- `WorkflowManager.get_debug_info`:
`self.debug_data.get(component, [])`, returned together with the
(unchanged) state — the Python method performs no mutation. -/
def getDebugInfo (st : WMState) (component : String) :
    List DebugEntry × WMState :=
  ((dget st.debug_data component).getD [], st)

/-- `WorkflowManager._has_critical_errors`: fewer than 2 plans with
`status == 'success'`. -/
def hasCriticalErrors (plans : Plans) : Bool :=
  (plans.filter (fun p => p.2.status = "success")).length < 2

/-- The per-plan score that `_generate_final_plan` reads from the
analysis reports:
`max over successful reports of report.get('plan_analysis', {}).get(model_name, {}).get('quality_score', 0.0)`,
folded from `0.0`. -/
def planScoreFromReports (analysis_reports : Reports) (model_name : String) : ℚ :=
  analysis_reports.foldl
    (fun plan_score rep =>
      if rep.2.status = "success" then
        max plan_score
          ((dget ((dget rep.2.plan_analysis model_name).getD []) ("quality_score")).getD 0)
      else plan_score)
    0

/-- `WorkflowManager._generate_final_plan`: scan the plans dict in
order, keeping the successful plan whose report-derived score *strictly*
exceeds the best so far (initially `0.0`); the error dict when no plan
was kept. -/
def generateFinalPlan (plans : Plans) (analysis_reports : Reports) : FinalPlan :=
  let best := plans.foldl
    (fun (best : Option Plan × ℚ) np =>
      if np.2.status = "success" then
        let plan_score := planScoreFromReports analysis_reports np.1
        if plan_score > best.2 then (some np.2, plan_score) else best
      else best)
    (none, 0)
  match best.1 with
  | some bp => FinalPlan.ok bp.content bp.model best.2
  | none => FinalPlan.failure ("No valid plans available for final generation")

/-- The socket events emitted by the control loop, with the data the
claims need (round index; the plans fed to a phase).  Progress-message
`status_update` emissions are not modelled. -/
inductive Ev where
  | workflowStart
  | iterStart (n : Nat)
  | analyzed (n : Nat) (input : Plans)
  | qualityUpdate (n : Nat) (q : ℚ)
  | thresholdMet (n : Nat)
  | converged (n : Nat)
  | improved (n : Nat) (p : Plans)
  | iterComplete (n : Nat)
  | workflowComplete
  | workflowError (msg : String)
deriving DecidableEq, Repr

/-- The round at which an event is emitted (pre/post-loop events are
round `0`). -/
def evRound : Ev → Nat
  | Ev.workflowStart => 0
  | Ev.iterStart n => n
  | Ev.analyzed n _ => n
  | Ev.qualityUpdate n _ => n
  | Ev.thresholdMet n => n
  | Ev.converged n => n
  | Ev.improved n _ => n
  | Ev.iterComplete n => n
  | Ev.workflowComplete => 0
  | Ev.workflowError _ => 0

/-- The dict returned by `run_workflow`. -/
structure RunResult where
  status : String
  message : Option String
  final_plan : Option FinalPlan
  iterations_completed : Option Nat
  final_quality_score : Option ℚ
deriving DecidableEq, Repr

/-- `{"status": "error", "message": msg}`. -/
def errResult (msg : String) : RunResult :=
  { status := "error", message := some msg, final_plan := none,
    iterations_completed := none, final_quality_score := none }

/-- The external-LLM oracles behind the three agents; each call is
indexed by the round in which it is issued, modelling the
nondeterminism of the external services across rounds. -/
structure Oracles where
  gen : String → String → String → String → Except String String
  analyzeLLM : Nat → String → String → Except String (String × Option ℚ)
  revise : Nat → String → String → String → Except String String

/-- The error message of the initial-generation gate. -/
def gateErrorMsg : String := "Failed to generate initial plans from all models"

/-- Intermediate data of the iterative improvement loop of
`run_workflow`: the local variables `current_plans`,
`analysis_reports`, `quality_history`, plus the manager state and the
emitted trace. -/
structure LoopState where
  cur : Plans
  reports : Reports
  hist : List ℚ
  st : WMState
  tr : List Ev
deriving Repr

/-- The `for iteration in range(1, max_iterations + 1)` loop of
`run_workflow` (analysis → scoring → stop checks → improvement), with
`fuel` the number of remaining iterations and `iter` the next iteration
index.  When the loop never runs (`max_iterations = 0`, excluded by the
transport validation) the Python code would crash on the unbound
`analysis_reports`; here the initial `reports := []` is returned. -/
def runLoop (O : Oracles) (threshold : ℚ) :
    Nat → Nat → LoopState → LoopState
  | _, 0, ls => ls
  | iter, fuel + 1, ls =>
    let st1 := { ls.st with current_iteration := iter }
    let tr1 := ls.tr ++ [Ev.iterStart iter]
    let reports := analyzePlans (O.analyzeLLM iter) ls.cur
    let st2 := storeDebug { st1 with analysis_reports := reports }
      ("cross_analysis_agent") (DebugPayload.reports reports)
    let tr2 := tr1 ++ [Ev.analyzed iter ls.cur]
    let q := calculateQualityScore reports
    let hist := ls.hist ++ [q]
    let st3 := { st2 with current_quality_score := q }
    let tr3 := tr2 ++ [Ev.qualityUpdate iter q]
    if q ≥ threshold then
      { cur := ls.cur, reports := reports, hist := hist, st := st3,
        tr := tr3 ++ [Ev.thresholdMet iter] }
    else if detectConvergence hist then
      { cur := ls.cur, reports := reports, hist := hist, st := st3,
        tr := tr3 ++ [Ev.converged iter] }
    else
      let improved := improvePlans (O.revise iter) ls.cur reports
      let st4 := storeDebug { st3 with plans := improved }
        ("improvement_agent") (DebugPayload.plans improved)
      -- `_has_critical_errors(improved_plans)` is consulted here but
      -- only logged; the improved plans are used unconditionally.
      let tr4 := tr3 ++ [Ev.improved iter improved, Ev.iterComplete iter]
      runLoop O threshold (iter + 1) fuel
        { cur := improved, reports := reports, hist := hist, st := st4, tr := tr4 }

/-- `WorkflowManager.run_workflow`: re-entrancy rejection, state reset,
initial generation, the gate, the improvement loop, final-plan
selection; the `finally` clause clears `is_running` on every accepted
path.  Returns the result dict, the final state and the emitted
events. -/
def runWorkflow (O : Oracles) (threshold : ℚ) (teacher_input : TeacherInput)
    (st0 : WMState) : RunResult × WMState × List Ev :=
  if st0.is_running then
    (errResult ("Workflow already running"), st0, [])
  else
    let st1 := { st0 with
      current_iteration := 0, is_running := true,
      current_quality_score := 0, plans := [], analysis_reports := [],
      final_plan := none, error := none }
    let tr1 := [Ev.workflowStart, Ev.iterStart 0]
    let initial_plans := generatePlans O.gen teacher_input
    let st2 := storeDebug { st1 with plans := initial_plans }
      ("teaching_plan_agent") (DebugPayload.plans initial_plans)
    if hasCriticalErrors initial_plans then
      -- `_handle_workflow_error` sets `error` and clears `is_running`;
      -- the `finally` clause clears `is_running` again.
      let st3 := { st2 with error := some gateErrorMsg, is_running := false }
      (errResult gateErrorMsg, st3, tr1 ++ [Ev.workflowError gateErrorMsg])
    else
      let ls := runLoop O threshold 1 st0.max_iterations
        { cur := initial_plans, reports := [], hist := [], st := st2, tr := tr1 }
      let final := generateFinalPlan ls.cur ls.reports
      let st4 := { ls.st with final_plan := some final, is_running := false }
      ({ status := "success", message := none, final_plan := some final,
         iterations_completed := some st4.current_iteration,
         final_quality_score := some st4.current_quality_score },
       st4, ls.tr ++ [Ev.workflowComplete])

/- ## Basic state lemmas -/

theorem storeDebug_current_iteration (st : WMState) (c : String) (p : DebugPayload) :
    (storeDebug st c p).current_iteration = st.current_iteration := rfl

theorem storeDebug_max_iterations (st : WMState) (c : String) (p : DebugPayload) :
    (storeDebug st c p).max_iterations = st.max_iterations := rfl

theorem storeDebug_is_running (st : WMState) (c : String) (p : DebugPayload) :
    (storeDebug st c p).is_running = st.is_running := rfl

/- ## Concrete fixtures used by the witness theorems -/

/-- An oracle set whose generation succeeds and whose analysis and
revision calls raise. -/
def owit : Oracles :=
  { gen := fun _ _ _ _ => Except.ok ("plan-artifact"),
    analyzeLLM := fun _ _ _ => Except.error ("llm down"),
    revise := fun _ _ _ _ => Except.error ("llm down") }

/-- A valid job descriptor (the scenario of the spec). -/
def tiwit : TeacherInput :=
  { subject := "Algebra", grade := "7",
    objectives := "solve linear equations", max_rounds := 3 }

/- ## C6 — re-entrancy rejection -/

/-- C6: calling `run_workflow` while `is_running` is true returns the
immediate error dict and leaves the whole manager state (iteration,
plans, reports, final plan, error, score, debug logs) unchanged, and
emits nothing. -/
theorem run_rejects_reentrant_call (O : Oracles) (threshold : ℚ)
    (ti : TeacherInput) (st : WMState) (h : st.is_running = true) :
    runWorkflow O threshold ti st =
      (errResult ("Workflow already running"), st, []) := by
  simp [runWorkflow, h]

/-- Witness for C6 at a concrete running state. -/
theorem run_rejects_reentrant_call_witness :
    runWorkflow owit 1 tiwit { initState 3 with is_running := true } =
      (errResult ("Workflow already running"),
       { initState 3 with is_running := true }, []) :=
  run_rejects_reentrant_call owit 1 tiwit _ rfl

/- ## C7 — `is_running` cleared on every accepted path -/

/-- C7: an accepted run (state not already running) always returns with
`is_running = false`, on the success path and on the gate-error path
alike (the Python `finally` clause). -/
theorem run_clears_is_running (O : Oracles) (threshold : ℚ)
    (ti : TeacherInput) (st : WMState) (h : st.is_running = false) :
    (runWorkflow O threshold ti st).2.1.is_running = false := by
  unfold runWorkflow
  rw [if_neg (by simp [h])]
  dsimp only
  split <;> rfl

/-- Witness for C7 at a concrete fresh state. -/
theorem run_clears_is_running_witness :
    (runWorkflow owit 1 tiwit (initState 3)).2.1.is_running = false :=
  run_clears_is_running owit 1 tiwit (initState 3) rfl

/- ## C10 — debug query is read-only -/

/-- C10: `get_debug_info` leaves the manager state unchanged, returns
the stored (ordered) entry list of the component, and returns `[]` for
an unknown component id. -/
theorem get_debug_info_readonly (st : WMState) (component : String) :
    (getDebugInfo st component).2 = st ∧
    (getDebugInfo st component).1 = (dget st.debug_data component).getD [] ∧
    (dget st.debug_data component = none → (getDebugInfo st component).1 = []) := by
  refine ⟨rfl, rfl, fun h => ?_⟩
  simp [getDebugInfo, h]

/-- Witness for C10: a fresh state and an unknown component id. -/
theorem get_debug_info_readonly_witness :
    (getDebugInfo (initState 3) ("no_such_component")).2 = initState 3 ∧
    (getDebugInfo (initState 3) ("no_such_component")).1 = [] :=
  ⟨(get_debug_info_readonly (initState 3) ("no_such_component")).1,
   (get_debug_info_readonly (initState 3) ("no_such_component")).2.2
     (by simp [initState, dget])⟩

/- ## Convergence lemmas -/

theorem qualityDeltas_cons_cons (a b : ℚ) (t : List ℚ) :
    qualityDeltas (a :: b :: t) = |b - a| :: qualityDeltas (b :: t) := rfl

theorem qualityDeltas_length (l : List ℚ) :
    (qualityDeltas l).length = l.length - 1 := by
  cases l with
  | nil => rfl
  | cons a t => simp [qualityDeltas]

theorem detectConvergence_short (l : List ℚ) (eps : ℚ) (h : l.length < 3) :
    detectConvergence l eps = false := by
  simp [detectConvergence, h]

theorem detectConvergence_three (a b c eps : ℚ) :
    detectConvergence [a, b, c] eps = true ↔ |b - a| < eps ∧ |c - b| < eps := by
  simp [detectConvergence, qualityDeltas]

theorem detectConvergence_cons (a : ℚ) (l : List ℚ) (eps : ℚ)
    (hl : 3 ≤ l.length) :
    detectConvergence (a :: l) eps = detectConvergence l eps := by
  obtain ⟨b, t, rfl⟩ : ∃ b t, l = b :: t := by
    cases l with
    | nil => simp at hl
    | cons b t => exact ⟨b, t, rfl⟩
  have hm : 2 ≤ t.length := by simpa using hl
  unfold detectConvergence
  rw [if_neg (by simp; omega), if_neg (by simp; omega)]
  simp only [qualityDeltas_cons_cons]
  have hlen : (qualityDeltas (b :: t)).length = t.length := by
    simp [qualityDeltas_length]
  have h1 : (|b - a| :: qualityDeltas (b :: t)).length - 2 =
      ((qualityDeltas (b :: t)).length - 2) + 1 := by
    simp [hlen]; omega
  rw [h1, List.drop_succ_cons]

theorem detectConvergence_iff (l : List ℚ) (eps : ℚ) (hl : 3 ≤ l.length) :
    detectConvergence l eps = true ↔
      |l.getD (l.length - 1) 0 - l.getD (l.length - 2) 0| < eps ∧
      |l.getD (l.length - 2) 0 - l.getD (l.length - 3) 0| < eps := by
  induction l with
  | nil => simp at hl
  | cons a t ih =>
    rcases Nat.lt_or_ge t.length 3 with h3 | h3
    · obtain ⟨b, c, rfl⟩ : ∃ b c, t = [b, c] := by
        match t, hl, h3 with
        | [b, c], _, _ => exact ⟨b, c, rfl⟩
      rw [detectConvergence_three]
      simp
      tauto
    · rw [detectConvergence_cons a t eps h3, ih h3]
      have e1 : (a :: t).length - 1 = (t.length - 1) + 1 := by simp; omega
      have e2 : (a :: t).length - 2 = (t.length - 2) + 1 := by simp; omega
      have e3 : (a :: t).length - 3 = (t.length - 3) + 1 := by simp; omega
      rw [e1, e2, e3, List.getD_cons_succ, List.getD_cons_succ,
        List.getD_cons_succ]

/- ## C2 — convergence detection -/

/-- C2 counterexample: the claim asserts that
`[0.5, 0.51, 0.515]` converges at epsilon `0.01`; in fact
`detect_convergence` returns `False` here, because the first of the
last two deltas is exactly `0.01`, which is not *strictly* below the
threshold. -/
theorem convergence_example_refuted :
    detectConvergence [1/2, 51/100, 103/200] (1/100) = false := by
  simp [detectConvergence, qualityDeltas, abs_lt]
  norm_num

/-- C2 (amended): convergence detection returns `false` for every
history of length `< 3`; for length `≥ 3` it returns `true` iff the
absolute deltas of each of the last two consecutive pairs are both
strictly below epsilon; it returns `false` for `[0.5, 0.51, 0.515]` at
epsilon `0.01` (the first delta equals epsilon) and `false` for
`[0.5, 0.6, 0.75]`. -/
theorem detect_convergence_characterised :
    (∀ (l : List ℚ) (eps : ℚ), l.length < 3 →
      detectConvergence l eps = false) ∧
    (∀ (l : List ℚ) (eps : ℚ), 3 ≤ l.length →
      (detectConvergence l eps = true ↔
        |l.getD (l.length - 1) 0 - l.getD (l.length - 2) 0| < eps ∧
        |l.getD (l.length - 2) 0 - l.getD (l.length - 3) 0| < eps)) ∧
    detectConvergence [1/2, 51/100, 103/200] (1/100) = false ∧
    detectConvergence [1/2, 3/5, 3/4] (1/100) = false := by
  refine ⟨detectConvergence_short, detectConvergence_iff, ?_, ?_⟩
  · simp [detectConvergence, qualityDeltas, abs_lt]
    norm_num
  · simp [detectConvergence, qualityDeltas, abs_lt]
    norm_num

/-- Witness for the amended C2 theorem: the short-history clause at a
2-point history and the characterisation clause at a 3-point history,
both with hypotheses discharged concretely. -/
theorem detect_convergence_characterised_witness :
    detectConvergence [1/2, 51/100] (1/100) = false ∧
    (detectConvergence [1/2, 502/1000, 503/1000] (1/100) = true ↔
      |(503:ℚ)/1000 - 502/1000| < 1/100 ∧ |(502:ℚ)/1000 - 1/2| < 1/100) := by
  constructor
  · exact detect_convergence_characterised.1 [1/2, 51/100] (1/100) (by norm_num)
  · have h := detect_convergence_characterised.2.1
      [1/2, 502/1000, 503/1000] (1/100) (by norm_num)
    simpa using h

/- ## Aggregation lemmas -/

/-- The weighted score written the way the spec words it: the weighted
sum over the fixed weights of the metrics present, normalised by the
sum of the weights present. -/
def specWeightedScore (metrics : List (String × ℚ)) : ℚ :=
  let present := qualityWeights.filter (fun mw => (dget metrics mw.1).isSome)
  let total := (present.map Prod.snd).sum
  if total > 0 then
    (present.map (fun mw => (dget metrics mw.1).getD 0 * mw.2)).sum / total
  else 0

/-- The aggregate written the way the spec words it: the arithmetic
mean, over the successful analysts, of the normalised weighted scores;
`0` when there is no successful analyst. -/
def specAggregate (analysis_reports : Reports) : ℚ :=
  let succ := analysis_reports.filter (fun r => r.2.status = "success")
  if succ = [] then 0
  else (succ.map (fun r => specWeightedScore r.2.quality_metrics)).sum /
    succ.length

theorem weighted_foldl_char (ws : List (String × ℚ))
    (metrics : List (String × ℚ)) (a b : ℚ) :
    ws.foldl (fun (acc : ℚ × ℚ) mw =>
      match dget metrics mw.1 with
      | some v => (acc.1 + v * mw.2, acc.2 + mw.2)
      | none => acc) (a, b)
    = (a + ((ws.filter (fun mw => (dget metrics mw.1).isSome)).map
            (fun mw => (dget metrics mw.1).getD 0 * mw.2)).sum,
       b + ((ws.filter (fun mw => (dget metrics mw.1).isSome)).map
            Prod.snd).sum) := by
  induction ws generalizing a b with
  | nil => simp
  | cons hd t ih =>
    cases hdg : dget metrics hd.1 with
    | none =>
      simp only [List.foldl_cons, hdg, List.filter_cons]
      simp [hdg, ih]
    | some v =>
      simp only [List.foldl_cons, hdg, List.filter_cons]
      simp [hdg, ih, add_assoc]

theorem calculateWeightedScore_eq_spec (metrics : List (String × ℚ)) :
    calculateWeightedScore metrics = specWeightedScore metrics := by
  unfold calculateWeightedScore specWeightedScore
  rw [weighted_foldl_char]
  simp

theorem qualityWeights_pos : ∀ mw ∈ qualityWeights, (0:ℚ) < mw.2 := by
  intro mw hmw
  fin_cases hmw <;> norm_num

theorem sums_bound (l : List (String × ℚ)) (metrics : List (String × ℚ))
    (hm : ∀ p ∈ metrics, 0 ≤ p.2 ∧ p.2 ≤ 1)
    (hw : ∀ mw ∈ l, 0 ≤ mw.2 ∧ (dget metrics mw.1).isSome) :
    0 ≤ (l.map (fun mw => (dget metrics mw.1).getD 0 * mw.2)).sum ∧
    (l.map (fun mw => (dget metrics mw.1).getD 0 * mw.2)).sum ≤
      (l.map Prod.snd).sum := by
  induction l with
  | nil => simp
  | cons hd t ih =>
    obtain ⟨hw0, hws⟩ := hw hd (List.mem_cons_self _ _)
    obtain ⟨v, hv⟩ := Option.isSome_iff_exists.mp hws
    obtain ⟨hv0, hv1⟩ := hm (hd.1, v) (dget_mem hv)
    have iht := ih (fun mw hmw => hw mw (List.mem_cons_of_mem _ hmw))
    simp only [List.map_cons, List.sum_cons, hv, Option.getD_some]
    constructor
    · have : 0 ≤ v * hd.2 := mul_nonneg hv0 hw0
      linarith [iht.1]
    · have : v * hd.2 ≤ hd.2 := by
        calc v * hd.2 ≤ 1 * hd.2 := mul_le_mul_of_nonneg_right hv1 hw0
        _ = hd.2 := one_mul _
      linarith [iht.2]

theorem calculateWeightedScore_bounds (metrics : List (String × ℚ))
    (hm : ∀ p ∈ metrics, 0 ≤ p.2 ∧ p.2 ≤ 1) :
    0 ≤ calculateWeightedScore metrics ∧ calculateWeightedScore metrics ≤ 1 := by
  rw [calculateWeightedScore_eq_spec]
  unfold specWeightedScore
  have hw : ∀ mw ∈ qualityWeights.filter (fun mw => (dget metrics mw.1).isSome),
      0 ≤ mw.2 ∧ (dget metrics mw.1).isSome := by
    intro mw hmw
    rw [List.mem_filter] at hmw
    exact ⟨le_of_lt (qualityWeights_pos mw hmw.1), by simpa using hmw.2⟩
  have hb := sums_bound _ metrics hm hw
  by_cases ht : ((qualityWeights.filter
      (fun mw => (dget metrics mw.1).isSome)).map Prod.snd).sum > 0
  · rw [if_pos ht]
    exact ⟨div_nonneg hb.1 (le_of_lt ht), (div_le_one ht).mpr hb.2⟩
  · rw [if_neg ht]
    norm_num

theorem qsum_nonneg (l : List ℚ) (h : ∀ x ∈ l, 0 ≤ x) : 0 ≤ l.sum := by
  induction l with
  | nil => simp
  | cons hd t ih =>
    simp only [List.sum_cons]
    have := h hd (List.mem_cons_self _ _)
    have := ih (fun x hx => h x (List.mem_cons_of_mem _ hx))
    linarith

theorem qsum_le_length (l : List ℚ) (h : ∀ x ∈ l, x ≤ 1) :
    l.sum ≤ (l.length : ℚ) := by
  induction l with
  | nil => simp
  | cons hd t ih =>
    simp only [List.sum_cons, List.length_cons]
    have := h hd (List.mem_cons_self _ _)
    have := ih (fun x hx => h x (List.mem_cons_of_mem _ hx))
    push_cast
    linarith

/- ## C5 — quality aggregation -/

/-- C5: over an analysis map whose successful reports carry metric
values in `[0,1]`, `calculate_quality_score` returns a value in
`[0,1]`; it equals the arithmetic mean over successful analysts of the
weight-normalised weighted sums (the spec formula); and it is exactly
`0` when no report is successful. -/
theorem aggregate_within_bounds (analysis_reports : Reports)
    (hm : ∀ r ∈ analysis_reports, r.2.status = "success" →
      ∀ p ∈ r.2.quality_metrics, 0 ≤ p.2 ∧ p.2 ≤ 1) :
    0 ≤ calculateQualityScore analysis_reports ∧
    calculateQualityScore analysis_reports ≤ 1 ∧
    calculateQualityScore analysis_reports = specAggregate analysis_reports ∧
    ((∀ r ∈ analysis_reports, r.2.status ≠ "success") →
      calculateQualityScore analysis_reports = 0) := by
  unfold calculateQualityScore specAggregate
  simp only [calculateWeightedScore_eq_spec]
  set succ := analysis_reports.filter (fun r => r.2.status = "success")
    with hsucc
  have hsuccmem : ∀ r ∈ succ, r ∈ analysis_reports ∧ r.2.status = "success" := by
    intro r hr
    rw [hsucc, List.mem_filter] at hr
    exact ⟨hr.1, by simpa using hr.2⟩
  set scores := succ.map (fun r => specWeightedScore r.2.quality_metrics)
    with hscores
  have hbnd : ∀ x ∈ scores, 0 ≤ x ∧ x ≤ 1 := by
    intro x hx
    rw [hscores, List.mem_map] at hx
    obtain ⟨r, hr, rfl⟩ := hx
    obtain ⟨hrr, hrs⟩ := hsuccmem r hr
    have := calculateWeightedScore_bounds r.2.quality_metrics (hm r hrr hrs)
    rwa [calculateWeightedScore_eq_spec] at this
  by_cases hnil : scores = []
  · have hsnil : succ = [] := by
      rw [hscores] at hnil
      exact List.map_eq_nil_iff.mp hnil
    simp [hnil, hsnil]
  · have hsnil : succ ≠ [] := by
      intro h
      exact hnil (by rw [hscores, h]; rfl)
    have hlen : (0:ℚ) < scores.length := by
      have : scores.length ≠ 0 := fun h => hnil (List.length_eq_zero.mp h)
      exact_mod_cast Nat.pos_of_ne_zero this
    have hsum0 : 0 ≤ scores.sum := qsum_nonneg _ (fun x hx => (hbnd x hx).1)
    have hsum1 : scores.sum ≤ (scores.length : ℚ) :=
      qsum_le_length _ (fun x hx => (hbnd x hx).2)
    refine ⟨?_, ?_, ?_, ?_⟩
    · rw [if_neg hnil]
      exact div_nonneg hsum0 (le_of_lt hlen)
    · rw [if_neg hnil]
      exact (div_le_one hlen).mpr hsum1
    · rw [if_neg hnil, if_neg hsnil, hscores]
      rw [List.length_map]
    · intro hall
      exfalso
      apply hsnil
      rw [hsucc]
      rw [List.filter_eq_nil_iff]
      intro r hr
      simpa using hall r hr

/-- Witness for C5: a single successful report with one in-range
metric; the aggregate is within bounds. -/
theorem aggregate_within_bounds_witness :
    0 ≤ calculateQualityScore
      [("qwen", parseAnalysisResult ("strengths 8/10") (some 8) ("qwen"))] ∧
    calculateQualityScore
      [("qwen", parseAnalysisResult ("strengths 8/10") (some 8) ("qwen"))] ≤ 1 := by
  have h := aggregate_within_bounds
    [("qwen", parseAnalysisResult ("strengths 8/10") (some 8) ("qwen"))]
    (by
      intro r hr _ p hp
      rw [List.mem_singleton] at hr
      subst hr
      simp only [parseAnalysisResult] at hp
      fin_cases hp <;> norm_num)
  exact ⟨h.1, h.2.1⟩

/- ## C8 — improvement feedback extraction and pass-through -/

/-- The feedback parts the spec describes: suggestions and
`Address: <weakness>` items from every *other* analyst's successful
report, in report order. -/
def specFeedbackParts (model_name : String)
    (analysis_reports : Reports) : List String :=
  (analysis_reports.filter
    (fun ar => ar.2.status = "success" ∧ ar.1 ≠ model_name)).flatMap
    (fun ar => ar.2.suggestions ++
      ar.2.weaknesses.map (fun w => "Address: " ++ w))

theorem feedback_foldl_char (model_name : String)
    (analysis_reports : Reports) (acc : List String) :
    analysis_reports.foldl
      (fun acc ar =>
        if ar.2.status = "success" ∧ ar.1 ≠ model_name then
          acc ++ ar.2.suggestions ++
            ar.2.weaknesses.map (fun w => "Address: " ++ w)
        else acc)
      acc
    = acc ++ specFeedbackParts model_name analysis_reports := by
  induction analysis_reports generalizing acc with
  | nil => simp [specFeedbackParts]
  | cons hd t ih =>
    by_cases hc : hd.2.status = "success" ∧ hd.1 ≠ model_name
    · simp only [List.foldl_cons, if_pos hc, ih, specFeedbackParts,
        List.filter_cons, hc]
      simp [specFeedbackParts, List.append_assoc, hc.1, hc.2]
    · simp only [List.foldl_cons, if_neg hc, ih, specFeedbackParts,
        List.filter_cons]
      simp [specFeedbackParts, hc]

theorem extractFeedback_eq_spec (model_name : String)
    (analysis_reports : Reports) :
    extractFeedbackForModel model_name analysis_reports =
      "\n\n".intercalate (specFeedbackParts model_name analysis_reports) := by
  unfold extractFeedbackForModel
  rw [feedback_foldl_char]
  simp only [List.nil_append]
  by_cases h : specFeedbackParts model_name analysis_reports = []
  · rw [if_pos h, h]
    rfl
  · rw [if_neg h]

/-- C8: the feedback handed to backend `m` is exactly the suggestions
plus `Address: <weakness>` items of every *other* analyst's successful
report (never `m`'s own report, never a failed report), and a backend
with empty feedback, or whose prior plan is not successful, is passed
through unchanged except for `improvement_applied := false`. -/
theorem feedback_exact_and_passthrough (model_name : String) (p : Plan)
    (plans : Plans) (analysis_reports : Reports)
    (revise : String → String → String → Except String String)
    (hmem : model_name ∈ modelNames)
    (hp : dget plans model_name = some p) :
    extractFeedbackForModel model_name analysis_reports =
      "\n\n".intercalate (specFeedbackParts model_name analysis_reports) ∧
    ((extractFeedbackForModel model_name analysis_reports = "" ∨
        p.status ≠ "success") →
      (model_name, { p with improvement_applied := some false }) ∈
        improvePlans revise plans analysis_reports) := by
  refine ⟨extractFeedback_eq_spec model_name analysis_reports, fun hcase => ?_⟩
  rw [improvePlans, List.mem_map]
  refine ⟨model_name, hmem, ?_⟩
  by_cases hfb : extractFeedbackForModel model_name analysis_reports = ""
  · rw [if_neg (by simpa using hfb), hp]
  · have hst : p.status ≠ "success" := by tauto
    rw [if_pos (by simpa using hfb), hp]
    dsimp only
    rw [if_neg hst]

/-- Witness for C8: a report set with one successful report by another
analyst and one own report; the prior plan failed, so the backend is
passed through with `improvement_applied := false`. -/
theorem feedback_exact_and_passthrough_witness :
    extractFeedbackForModel ("qwen")
      [("deepseek", errReport ("deepseek") ("boom"))] =
      "\n\n".intercalate (specFeedbackParts ("qwen")
        [("deepseek", errReport ("deepseek") ("boom"))]) ∧
    (("qwen" : String),
      { errPlan ("qwen") ("gen failed") with improvement_applied := some false }) ∈
      improvePlans (fun _ _ _ => Except.error ("down"))
        [("qwen", errPlan ("qwen") ("gen failed"))]
        [("deepseek", errReport ("deepseek") ("boom"))] := by
  have h := feedback_exact_and_passthrough ("qwen")
    (errPlan ("qwen") ("gen failed"))
    [("qwen", errPlan ("qwen") ("gen failed"))]
    [("deepseek", errReport ("deepseek") ("boom"))]
    (fun _ _ _ => Except.error ("down"))
    (by simp [modelNames])
    (by simp [dget])
  exact ⟨h.1, h.2 (Or.inr (by simp [errPlan]))⟩

/- ## C1 — final-plan selection and the dead `plan_analysis` field -/

theorem parseAnalysisResult_plan_analysis (final_answer : String)
    (score_match : Option ℚ) (analyst_model : String) :
    (parseAnalysisResult final_answer score_match analyst_model).plan_analysis
      = [] := rfl

theorem planScore_zero_of_empty_plan_analysis (analysis_reports : Reports)
    (h : ∀ r ∈ analysis_reports, r.2.plan_analysis = [])
    (model_name : String) :
    planScoreFromReports analysis_reports model_name = 0 := by
  unfold planScoreFromReports
  induction analysis_reports with
  | nil => rfl
  | cons hd t ih =>
    simp only [List.foldl_cons]
    have hhd : hd.2.plan_analysis = [] := h hd (List.mem_cons_self _ _)
    have hstep :
        (if hd.2.status = "success" then
          max 0 ((dget ((dget hd.2.plan_analysis model_name).getD [])
            ("quality_score")).getD 0)
        else 0) = (0:ℚ) := by
      rw [hhd]
      split <;> simp [dget]
    rw [hstep]
    exact ih (fun r hr => h r (List.mem_cons_of_mem _ hr))

theorem generateFinalPlan_failure_of_empty_plan_analysis (plans : Plans)
    (analysis_reports : Reports)
    (h : ∀ r ∈ analysis_reports, r.2.plan_analysis = []) :
    generateFinalPlan plans analysis_reports =
      FinalPlan.failure ("No valid plans available for final generation") := by
  unfold generateFinalPlan
  have hfold : plans.foldl
      (fun (best : Option Plan × ℚ) np =>
        if np.2.status = "success" then
          let plan_score := planScoreFromReports analysis_reports np.1
          if plan_score > best.2 then (some np.2, plan_score) else best
        else best)
      (none, 0) = (none, 0) := by
    induction plans with
    | nil => rfl
    | cons hd t ih =>
      simp only [List.foldl_cons]
      have : (if hd.2.status = "success" then
          let plan_score := planScoreFromReports analysis_reports hd.1
          if plan_score > (0:ℚ) then (some hd.2, plan_score)
          else ((none : Option Plan), (0:ℚ))
        else ((none : Option Plan), (0:ℚ))) = (none, 0) := by
        rw [planScore_zero_of_empty_plan_analysis analysis_reports h hd.1]
        split <;> simp
      rw [this]
      exact ih
  rw [hfold]

/-- The plans used in the C1 failing input: two successful backends and
one failed backend. -/
def c1plans : Plans :=
  [("qwen", successPlan ("plan A") ("qwen")),
   ("deepseek", successPlan ("plan B") ("deepseek")),
   ("personal_chatgpt", errPlan ("personal_chatgpt") ("timeout"))]

/-- The last-round reports of the C1 failing input: what
`analyze_plans` actually produces — three successful reports parsed by
`_parse_analysis_result`, hence with no `plan_analysis` key. -/
def c1reports : Reports :=
  analyzePlans
    (fun _ _ =>
      Except.ok (("The strengths, weaknesses and suggestions are noted: 8/10"),
        some 8))
    c1plans

/-- C1 (code bug): on a last round with two successful plans and three
successful analyst reports — exactly as produced by the analysis stage,
whose reports never contain a `plan_analysis` key — every per-plan
score reads as `0.0`, the strict `>` test never fires, and
`_generate_final_plan` returns the Failure dict even though successful
backends exist.  The claim (and §9 of the spec) say the best successful
plan should have been selected, with ties broken by first-seen order. -/
theorem final_plan_dead_field_bug :
    (c1plans.filter (fun p => p.2.status = "success")).length = 2 ∧
    (∀ r ∈ c1reports, r.2.status = "success") ∧
    generateFinalPlan c1plans c1reports =
      FinalPlan.failure ("No valid plans available for final generation") := by
  refine ⟨by simp [c1plans, successPlan, errPlan], ?_, ?_⟩
  · intro r hr
    simp only [c1reports, analyzePlans, modelNames, List.map_cons,
      List.map_nil, List.mem_cons, List.not_mem_nil, or_false] at hr
    rcases hr with rfl | rfl | rfl <;> rfl
  · exact generateFinalPlan_failure_of_empty_plan_analysis _ _
      (by
        intro r hr
        simp only [c1reports, analyzePlans, modelNames, List.map_cons,
          List.map_nil, List.mem_cons, List.not_mem_nil, or_false] at hr
        rcases hr with rfl | rfl | rfl <;> rfl)

/- ## Loop trace lemmas -/

theorem runLoop_tr_mono (O : Oracles) (threshold : ℚ) :
    ∀ (fuel iter : Nat) (ls : LoopState) (e : Ev),
      e ∈ ls.tr → e ∈ (runLoop O threshold iter fuel ls).tr := by
  intro fuel
  induction fuel with
  | zero =>
    intro iter ls e he
    simpa [runLoop] using he
  | succ f ih =>
    intro iter ls e he
    simp only [runLoop]
    split
    · simp [List.mem_append, he]
    · split
      · simp [List.mem_append, he]
      · exact ih (iter + 1) _ e (by simp [List.mem_append, he])

theorem runLoop_iterStart_mem (O : Oracles) (threshold : ℚ)
    (f iter : Nat) (ls : LoopState) :
    Ev.iterStart iter ∈ (runLoop O threshold iter (f + 1) ls).tr := by
  simp only [runLoop]
  split
  · simp [List.mem_append]
  · split
    · simp [List.mem_append]
    · exact runLoop_tr_mono O threshold f (iter + 1) _ _
        (by simp [List.mem_append])

theorem runLoop_tr_round_ge (O : Oracles) (threshold : ℚ) :
    ∀ (fuel iter : Nat) (ls : LoopState) (e : Ev),
      e ∈ (runLoop O threshold iter fuel ls).tr →
        e ∈ ls.tr ∨ iter ≤ evRound e := by
  intro fuel
  induction fuel with
  | zero =>
    intro iter ls e he
    exact Or.inl (by simpa [runLoop] using he)
  | succ f ih =>
    intro iter ls e he
    simp only [runLoop] at he
    have step : ∀ l : List Ev, e ∈ l →
        (∀ x ∈ l, evRound x = iter) → e ∈ ls.tr ∨ iter ≤ evRound e :=
      fun l hl hall => Or.inr (le_of_eq (hall e hl).symm)
    split at he
    · rcases List.mem_append.mp he with h | h
      · rcases List.mem_append.mp h with h2 | h2
        · rcases List.mem_append.mp h2 with h3 | h3
          · rcases List.mem_append.mp h3 with h4 | h4
            · exact Or.inl h4
            · exact step _ h4 (by intro x hx; simp at hx; subst hx; rfl)
          · exact step _ h3 (by intro x hx; simp at hx; subst hx; rfl)
        · exact step _ h2 (by intro x hx; simp at hx; subst hx; rfl)
      · exact step _ h (by intro x hx; simp at hx; subst hx; rfl)
    · split at he
      · rcases List.mem_append.mp he with h | h
        · rcases List.mem_append.mp h with h2 | h2
          · rcases List.mem_append.mp h2 with h3 | h3
            · rcases List.mem_append.mp h3 with h4 | h4
              · exact Or.inl h4
              · exact step _ h4 (by intro x hx; simp at hx; subst hx; rfl)
            · exact step _ h3 (by intro x hx; simp at hx; subst hx; rfl)
          · exact step _ h2 (by intro x hx; simp at hx; subst hx; rfl)
        · exact step _ h (by intro x hx; simp at hx; subst hx; rfl)
      · rcases ih (iter + 1) _ e he with h | h
        · rcases List.mem_append.mp h with h2 | h2
          · rcases List.mem_append.mp h2 with h3 | h3
            · rcases List.mem_append.mp h3 with h4 | h4
              · rcases List.mem_append.mp h4 with h5 | h5
                · exact Or.inl h5
                · exact step _ h5 (by intro x hx; simp at hx; subst hx; rfl)
              · exact step _ h4 (by intro x hx; simp at hx; subst hx; rfl)
            · exact step _ h3 (by intro x hx; simp at hx; subst hx; rfl)
          · simp only [List.mem_cons, List.not_mem_nil, or_false] at h2
            rcases h2 with h3 | h3 <;> (subst h3; exact Or.inr (by simp [evRound]))
        · exact Or.inr (le_trans (Nat.le_succ iter) h)

theorem runLoop_tr_round_le (O : Oracles) (threshold : ℚ) :
    ∀ (fuel iter : Nat) (ls : LoopState) (e : Ev),
      e ∈ (runLoop O threshold iter fuel ls).tr →
        e ∈ ls.tr ∨ evRound e ≤ iter - 1 + fuel := by
  intro fuel
  induction fuel with
  | zero =>
    intro iter ls e he
    exact Or.inl (by simpa [runLoop] using he)
  | succ f ih =>
    intro iter ls e he
    simp only [runLoop] at he
    have step : ∀ l : List Ev, e ∈ l →
        (∀ x ∈ l, evRound x = iter) →
        e ∈ ls.tr ∨ evRound e ≤ iter - 1 + (f + 1) :=
      fun l hl hall => Or.inr (by rw [hall e hl]; omega)
    split at he
    · rcases List.mem_append.mp he with h | h
      · rcases List.mem_append.mp h with h2 | h2
        · rcases List.mem_append.mp h2 with h3 | h3
          · rcases List.mem_append.mp h3 with h4 | h4
            · exact Or.inl h4
            · exact step _ h4 (by intro x hx; simp at hx; subst hx; rfl)
          · exact step _ h3 (by intro x hx; simp at hx; subst hx; rfl)
        · exact step _ h2 (by intro x hx; simp at hx; subst hx; rfl)
      · exact step _ h (by intro x hx; simp at hx; subst hx; rfl)
    · split at he
      · rcases List.mem_append.mp he with h | h
        · rcases List.mem_append.mp h with h2 | h2
          · rcases List.mem_append.mp h2 with h3 | h3
            · rcases List.mem_append.mp h3 with h4 | h4
              · exact Or.inl h4
              · exact step _ h4 (by intro x hx; simp at hx; subst hx; rfl)
            · exact step _ h3 (by intro x hx; simp at hx; subst hx; rfl)
          · exact step _ h2 (by intro x hx; simp at hx; subst hx; rfl)
        · exact step _ h (by intro x hx; simp at hx; subst hx; rfl)
      · rcases ih (iter + 1) _ e he with h | h
        · rcases List.mem_append.mp h with h2 | h2
          · rcases List.mem_append.mp h2 with h3 | h3
            · rcases List.mem_append.mp h3 with h4 | h4
              · rcases List.mem_append.mp h4 with h5 | h5
                · exact Or.inl h5
                · exact step _ h5 (by intro x hx; simp at hx; subst hx; rfl)
              · exact step _ h4 (by intro x hx; simp at hx; subst hx; rfl)
            · exact step _ h3 (by intro x hx; simp at hx; subst hx; rfl)
          · simp only [List.mem_cons, List.not_mem_nil, or_false] at h2
            rcases h2 with h3 | h3 <;>
              (subst h3; exact Or.inr (by simp [evRound]; omega))
        · exact Or.inr (by omega)

theorem runLoop_ci_le (O : Oracles) (threshold : ℚ) :
    ∀ (fuel iter : Nat) (ls : LoopState),
      (runLoop O threshold iter fuel ls).st.current_iteration ≤
        max ls.st.current_iteration (iter - 1 + fuel) := by
  intro fuel
  induction fuel with
  | zero =>
    intro iter ls
    simp [runLoop]
  | succ f ih =>
    intro iter ls
    simp only [runLoop]
    split
    · simp only [storeDebug_current_iteration]
      have : iter ≤ iter - 1 + (f + 1) := by omega
      exact le_max_of_le_right this
    · split
      · simp only [storeDebug_current_iteration]
        have : iter ≤ iter - 1 + (f + 1) := by omega
        exact le_max_of_le_right this
      · refine le_trans (ih (iter + 1) _) ?_
        simp only [storeDebug_current_iteration]
        have h1 : max iter (iter + 1 - 1 + f) = iter + f := by omega
        rw [h1]
        exact le_max_of_le_right (by omega)

theorem runLoop_threshold_stop (O : Oracles) (threshold : ℚ) :
    ∀ (fuel iter : Nat) (ls : LoopState) (k : Nat),
      (∀ e ∈ ls.tr, evRound e < iter) →
      (∀ n, Ev.thresholdMet n ∉ ls.tr) →
      Ev.thresholdMet k ∈ (runLoop O threshold iter fuel ls).tr →
      (∀ e ∈ (runLoop O threshold iter fuel ls).tr, evRound e ≤ k) ∧
      (∀ p, Ev.improved k p ∉ (runLoop O threshold iter fuel ls).tr) := by
  intro fuel
  induction fuel with
  | zero =>
    intro iter ls k _ H2 he
    simp only [runLoop] at he
    exact absurd he (H2 k)
  | succ f ih =>
    intro iter ls k H1 H2 he
    simp only [runLoop] at he ⊢
    by_cases hq : calculateQualityScore (analyzePlans (O.analyzeLLM iter) ls.cur)
        ≥ threshold
    · rw [if_pos hq] at he ⊢
      dsimp only at he ⊢
      have hk : k = iter := by
        rcases List.mem_append.mp he with h | h
        · rcases List.mem_append.mp h with h2 | h2
          · rcases List.mem_append.mp h2 with h3 | h3
            · rcases List.mem_append.mp h3 with h4 | h4
              · exact absurd h4 (H2 k)
              · simp at h4
            · simp at h3
          · simp at h2
        · simpa using h
      subst hk
      constructor
      · intro e hee
        rcases List.mem_append.mp hee with h | h
        · rcases List.mem_append.mp h with h2 | h2
          · rcases List.mem_append.mp h2 with h3 | h3
            · rcases List.mem_append.mp h3 with h4 | h4
              · exact le_of_lt (H1 e h4)
              · simp at h4; subst h4; exact le_refl _
            · simp at h3; subst h3; exact le_refl _
          · simp at h2; subst h2; exact le_refl _
        · simp at h; subst h; exact le_refl _
      · intro p hp
        rcases List.mem_append.mp hp with h | h
        · rcases List.mem_append.mp h with h2 | h2
          · rcases List.mem_append.mp h2 with h3 | h3
            · rcases List.mem_append.mp h3 with h4 | h4
              · exact absurd (H1 _ h4) (by simp [evRound])
              · simp at h4
            · simp at h3
          · simp at h2
        · simp at h
    · rw [if_neg hq] at he ⊢
      by_cases hc : detectConvergence (ls.hist ++
          [calculateQualityScore (analyzePlans (O.analyzeLLM iter) ls.cur)]) = true
      · rw [if_pos hc] at he ⊢
        dsimp only at he
        exfalso
        rcases List.mem_append.mp he with h | h
        · rcases List.mem_append.mp h with h2 | h2
          · rcases List.mem_append.mp h2 with h3 | h3
            · rcases List.mem_append.mp h3 with h4 | h4
              · exact absurd h4 (H2 k)
              · simp at h4
            · simp at h3
          · simp at h2
        · simp at h
      · rw [if_neg hc] at he ⊢
        refine ih (iter + 1) _ k ?_ ?_ he
        · intro e hee
          rcases List.mem_append.mp hee with h | h
          · rcases List.mem_append.mp h with h2 | h2
            · rcases List.mem_append.mp h2 with h3 | h3
              · rcases List.mem_append.mp h3 with h4 | h4
                · exact lt_trans (H1 e h4) (Nat.lt_succ_self iter)
                · simp at h4; subst h4; exact Nat.lt_succ_self iter
              · simp at h3; subst h3; exact Nat.lt_succ_self iter
            · simp at h2; subst h2; exact Nat.lt_succ_self iter
          · simp only [List.mem_cons, List.not_mem_nil, or_false] at h
            rcases h with h3 | h3 <;>
              (subst h3; simp [evRound])
        · intro n hn
          rcases List.mem_append.mp hn with h | h
          · rcases List.mem_append.mp h with h2 | h2
            · rcases List.mem_append.mp h2 with h3 | h3
              · rcases List.mem_append.mp h3 with h4 | h4
                · exact absurd h4 (H2 n)
                · simp at h4
              · simp at h3
            · simp at h2
          · simp only [List.mem_cons, List.not_mem_nil, or_false] at h
            rcases h with h3 | h3 <;> simp at h3

/- ## C3 — round bound and threshold stop -/

/-- C3 (amended): for an accepted run with the configured
`max_iterations` in `[1,10]`, the executed iteration count never
exceeds `max_iterations` (the workflow reads its bound from the
configuration; the job's `max_rounds` field is ignored by
`run_workflow`), and when the threshold fires at round `k` no
improvement work for round `k` and no round-`k+1` phase ever happens. -/
theorem rounds_bounded_and_threshold_stops (O : Oracles) (threshold : ℚ)
    (ti : TeacherInput) (st : WMState)
    (h0 : st.is_running = false)
    (h1 : 1 ≤ st.max_iterations) (h2 : st.max_iterations ≤ 10) :
    (runWorkflow O threshold ti st).2.1.current_iteration ≤ st.max_iterations ∧
    (∀ n, Ev.iterStart n ∈ (runWorkflow O threshold ti st).2.2 →
      n ≤ st.max_iterations) ∧
    (∀ k, Ev.thresholdMet k ∈ (runWorkflow O threshold ti st).2.2 →
      (∀ p, Ev.improved k p ∉ (runWorkflow O threshold ti st).2.2) ∧
      Ev.iterStart (k + 1) ∉ (runWorkflow O threshold ti st).2.2 ∧
      (∀ p, Ev.analyzed (k + 1) p ∉ (runWorkflow O threshold ti st).2.2)) := by
  simp only [runWorkflow]
  rw [if_neg (by simp [h0])]
  by_cases hg : hasCriticalErrors (generatePlans O.gen ti) = true
  · rw [if_pos hg]
    dsimp only
    refine ⟨by simp [storeDebug_current_iteration], ?_, ?_⟩
    · intro n hn
      simp only [List.mem_append, List.mem_cons, List.not_mem_nil, or_false] at hn
      rcases hn with (h | h) | h <;> simp_all
    · intro k hk
      simp only [List.mem_append, List.mem_cons, List.not_mem_nil, or_false] at hk
      rcases hk with (h | h) | h <;> simp_all
  · rw [if_neg hg]
    dsimp only
    have H1 : ∀ e ∈ [Ev.workflowStart, Ev.iterStart 0], evRound e < 1 := by
      intro e hee
      simp only [List.mem_cons, List.not_mem_nil, or_false] at hee
      rcases hee with rfl | rfl <;> simp [evRound]
    have H2 : ∀ n, Ev.thresholdMet n ∉ [Ev.workflowStart, Ev.iterStart 0] := by
      intro n hn
      simp at hn
    refine ⟨?_, ?_, ?_⟩
    · refine le_trans (runLoop_ci_le O threshold st.max_iterations 1 _) ?_
      simp only [storeDebug_current_iteration]
      omega
    · intro n hn
      rcases List.mem_append.mp hn with h | h
      · rcases runLoop_tr_round_le O threshold st.max_iterations 1 _ _ h with
          h2' | h2'
        · dsimp only at h2'
          simp only [List.mem_cons, List.not_mem_nil, or_false] at h2'
          rcases h2' with h3 | h3 <;> simp_all
        · simpa [evRound] using h2'
      · simp at h
    · intro k hk
      have hkmem : Ev.thresholdMet k ∈
          (runLoop O threshold 1 st.max_iterations
            { cur := generatePlans O.gen ti, reports := [], hist := [],
              st := storeDebug { st with
                current_iteration := 0, is_running := true,
                current_quality_score := 0, plans := generatePlans O.gen ti,
                analysis_reports := [], final_plan := none, error := none }
                ("teaching_plan_agent")
                (DebugPayload.plans (generatePlans O.gen ti)),
              tr := [Ev.workflowStart, Ev.iterStart 0] }).tr := by
        rcases List.mem_append.mp hk with h | h
        · exact h
        · simp at h
      have hstop := runLoop_threshold_stop O threshold st.max_iterations 1 _ k
        H1 H2 hkmem
      refine ⟨?_, ?_, ?_⟩
      · intro p hp
        rcases List.mem_append.mp hp with h | h
        · exact absurd h (hstop.2 p)
        · simp at h
      · intro hp
        rcases List.mem_append.mp hp with h | h
        · have := hstop.1 _ h
          simp [evRound] at this
        · simp at hp
          simp at h
      · intro p hp
        rcases List.mem_append.mp hp with h | h
        · have := hstop.1 _ h
          simp [evRound] at this
        · simp at h

/-- Witness for the amended C3 theorem at a concrete accepted job. -/
theorem rounds_bounded_and_threshold_stops_witness :
    (runWorkflow owit 1 tiwit (initState 3)).2.1.current_iteration ≤ 3 ∧
    (∀ n, Ev.iterStart n ∈ (runWorkflow owit 1 tiwit (initState 3)).2.2 →
      n ≤ 3) := by
  have h := rounds_bounded_and_threshold_stops owit 1 tiwit (initState 3) rfl
    (by norm_num [initState]) (by norm_num [initState])
  exact ⟨h.1, h.2.1⟩

/-- C3 counterexample: `run_workflow` never reads the job's
`max_rounds`; its bound is the configured `max_iterations`.  With a job
whose `max_rounds` is `1` but a configuration of `2`, and scores below
threshold, the run executes 2 iterations — more than the job's
`max_rounds`. -/
theorem rounds_exceed_job_max_rounds :
    ({ subject := "Algebra", grade := "7",
       objectives := "solve linear equations", max_rounds := 1 } :
      TeacherInput).max_rounds = 1 ∧
    (runWorkflow owit 1
      { subject := "Algebra", grade := "7",
        objectives := "solve linear equations", max_rounds := 1 }
      (initState 2)).2.1.current_iteration = 2 := by
  refine ⟨rfl, ?_⟩
  have hq : ¬ ((0:ℚ) ≥ 1) := by norm_num
  simp [runWorkflow, runLoop, initState, owit, generatePlans, modelNames,
    analyzePlans, errReport, successPlan, errPlan, hasCriticalErrors,
    calculateQualityScore, detectConvergence, improvePlans,
    extractFeedbackForModel, dget, storeDebug, hq]

/- ## C4 — minimum viable generation gate -/

/-- C4: an accepted run whose initial generation has fewer than 2
successes fails fatally — the error result is returned, `error` is set
and `workflow_error` is emitted; with exactly 2 successes the gate
passes, the run returns a success result and round 1 starts (when at
least one iteration is configured). -/
theorem generation_gate (O : Oracles) (threshold : ℚ) (ti : TeacherInput)
    (st : WMState) (h0 : st.is_running = false) :
    (((generatePlans O.gen ti).filter
        (fun p => p.2.status = "success")).length < 2 →
      (runWorkflow O threshold ti st).1 = errResult gateErrorMsg ∧
      (runWorkflow O threshold ti st).2.1.error = some gateErrorMsg ∧
      Ev.workflowError gateErrorMsg ∈ (runWorkflow O threshold ti st).2.2) ∧
    (((generatePlans O.gen ti).filter
        (fun p => p.2.status = "success")).length = 2 →
      (runWorkflow O threshold ti st).1.status = "success" ∧
      (1 ≤ st.max_iterations →
        Ev.iterStart 1 ∈ (runWorkflow O threshold ti st).2.2)) := by
  simp only [runWorkflow]
  rw [if_neg (by simp [h0])]
  constructor
  · intro hlt
    have hg : hasCriticalErrors (generatePlans O.gen ti) = true := by
      simp [hasCriticalErrors, hlt]
    rw [if_pos hg]
    dsimp only
    exact ⟨rfl, rfl, by simp⟩
  · intro heq
    have hg : ¬ hasCriticalErrors (generatePlans O.gen ti) = true := by
      simp [hasCriticalErrors, heq]
    rw [if_neg hg]
    dsimp only
    refine ⟨rfl, fun hmax => ?_⟩
    obtain ⟨f, hf⟩ : ∃ f, st.max_iterations = f + 1 :=
      ⟨st.max_iterations - 1, by omega⟩
    rw [hf]
    exact List.mem_append.mpr (Or.inl (runLoop_iterStart_mem O threshold f 1 _))

/-- Oracles whose generation succeeds for exactly one backend. -/
def ow1 : Oracles :=
  { gen := fun m _ _ _ =>
      if m = "qwen" then Except.ok ("plan-artifact") else Except.error ("down"),
    analyzeLLM := fun _ _ _ => Except.error ("llm down"),
    revise := fun _ _ _ _ => Except.error ("llm down") }

/-- Oracles whose generation succeeds for exactly two backends. -/
def ow2 : Oracles :=
  { gen := fun m _ _ _ =>
      if m = "personal_chatgpt" then Except.error ("down")
      else Except.ok ("plan-artifact"),
    analyzeLLM := fun _ _ _ => Except.error ("llm down"),
    revise := fun _ _ _ _ => Except.error ("llm down") }

/-- Witness for C4: with 1 success out of 3 the run aborts with the
gate error; with exactly 2 successes it completes successfully. -/
theorem generation_gate_witness :
    (runWorkflow ow1 1 tiwit (initState 3)).1 = errResult gateErrorMsg ∧
    (runWorkflow ow2 1 tiwit (initState 3)).1.status = "success" := by
  constructor
  · exact ((generation_gate ow1 1 tiwit (initState 3) rfl).1
      (by simp [generatePlans, modelNames, ow1, successPlan, errPlan])).1
  · exact ((generation_gate ow2 1 tiwit (initState 3) rfl).2
      (by simp [generatePlans, modelNames, ow2, successPlan, errPlan])).1

/- ## C9 — improvement failures are not fatal -/

theorem runLoop_analyzed_mem (O : Oracles) (threshold : ℚ)
    (f iter : Nat) (ls : LoopState) :
    Ev.analyzed iter ls.cur ∈ (runLoop O threshold iter (f + 1) ls).tr := by
  simp only [runLoop]
  split
  · simp [List.mem_append]
  · split
    · simp [List.mem_append]
    · exact runLoop_tr_mono O threshold f (iter + 1) _ _
        (by simp [List.mem_append])

/-- One continue-step unfolding of the loop: when round `iter` neither
meets the threshold nor converges, the loop recurses at `iter + 1` on
the improved plans. -/
theorem runLoop_continue_step (O : Oracles) (threshold : ℚ)
    (iter fuel : Nat) (ls : LoopState)
    (hq : ¬ calculateQualityScore
      (analyzePlans (O.analyzeLLM iter) ls.cur) ≥ threshold)
    (hc : ¬ detectConvergence (ls.hist ++
      [calculateQualityScore (analyzePlans (O.analyzeLLM iter) ls.cur)]) = true) :
    runLoop O threshold iter (fuel + 1) ls =
      runLoop O threshold (iter + 1) fuel
        { cur := improvePlans (O.revise iter) ls.cur
            (analyzePlans (O.analyzeLLM iter) ls.cur),
          reports := analyzePlans (O.analyzeLLM iter) ls.cur,
          hist := ls.hist ++
            [calculateQualityScore (analyzePlans (O.analyzeLLM iter) ls.cur)],
          st := storeDebug
            { storeDebug
                { ls.st with
                  current_iteration := iter,
                  analysis_reports := analyzePlans (O.analyzeLLM iter) ls.cur }
                ("cross_analysis_agent")
                (DebugPayload.reports
                  (analyzePlans (O.analyzeLLM iter) ls.cur)) with
              current_quality_score :=
                calculateQualityScore (analyzePlans (O.analyzeLLM iter) ls.cur),
              plans := improvePlans (O.revise iter) ls.cur
                (analyzePlans (O.analyzeLLM iter) ls.cur) }
            ("improvement_agent")
            (DebugPayload.plans
              (improvePlans (O.revise iter) ls.cur
                (analyzePlans (O.analyzeLLM iter) ls.cur))),
          tr := ls.tr ++ [Ev.iterStart iter] ++ [Ev.analyzed iter ls.cur] ++
            [Ev.qualityUpdate iter
              (calculateQualityScore (analyzePlans (O.analyzeLLM iter) ls.cur))] ++
            [Ev.improved iter
              (improvePlans (O.revise iter) ls.cur
                (analyzePlans (O.analyzeLLM iter) ls.cur)),
             Ev.iterComplete iter] } := by
  conv_lhs => rw [runLoop]
  rw [if_neg hq, if_neg hc]

/-- C9: when round `iter` neither meets the threshold nor converges,
the improved plan map — here one with fewer than 2 successes
(`hcrit`) — becomes the input of round `iter + 1`\'s cross-analysis
(the previous plans are not restored), and a run whose initial gate
passed returns a success result regardless of any improvement
failures. -/
theorem improvement_failures_not_fatal (O : Oracles) (threshold : ℚ)
    (iter f : Nat) (ls : LoopState)
    (_hcrit : hasCriticalErrors
      (improvePlans (O.revise iter) ls.cur
        (analyzePlans (O.analyzeLLM iter) ls.cur)) = true)
    (hq : ¬ calculateQualityScore
      (analyzePlans (O.analyzeLLM iter) ls.cur) ≥ threshold)
    (hc : ¬ detectConvergence (ls.hist ++
      [calculateQualityScore (analyzePlans (O.analyzeLLM iter) ls.cur)]) = true) :
    (Ev.improved iter
        (improvePlans (O.revise iter) ls.cur
          (analyzePlans (O.analyzeLLM iter) ls.cur))
      ∈ (runLoop O threshold iter (f + 1 + 1) ls).tr ∧
     Ev.analyzed (iter + 1)
        (improvePlans (O.revise iter) ls.cur
          (analyzePlans (O.analyzeLLM iter) ls.cur))
      ∈ (runLoop O threshold iter (f + 1 + 1) ls).tr) ∧
    (∀ (ti : TeacherInput) (st : WMState), st.is_running = false →
      hasCriticalErrors (generatePlans O.gen ti) = false →
      (runWorkflow O threshold ti st).1.status = "success") := by
  refine ⟨?_, ?_⟩
  · rw [runLoop_continue_step O threshold iter (f + 1) ls hq hc]
    constructor
    · exact runLoop_tr_mono O threshold (f + 1) (iter + 1) _ _
        (by simp [List.mem_append])
    · exact runLoop_analyzed_mem O threshold f (iter + 1) _
  · intro ti st h0 hg
    simp only [runWorkflow]
    rw [if_neg (by simp [h0]), if_neg (by simp [hg])]

/-- A plans map in which every backend failed. -/
def allErrPlans : Plans :=
  [("qwen", errPlan ("qwen") ("down")),
   ("deepseek", errPlan ("deepseek") ("down")),
   ("personal_chatgpt", errPlan ("personal_chatgpt") ("down"))]

/-- A loop state entering round 1 with the all-failure plans. -/
def ls9 : LoopState :=
  { cur := allErrPlans, reports := [], hist := [], st := initState 2, tr := [] }

/-- Witness for C9: a round whose improvement output has zero successes
still feeds round 2's cross-analysis, and a gate-passed run returns a
success result. -/
theorem improvement_failures_not_fatal_witness :
    Ev.analyzed 2
        (improvePlans (owit.revise 1) ls9.cur
          (analyzePlans (owit.analyzeLLM 1) ls9.cur))
      ∈ (runLoop owit 1 1 2 ls9).tr ∧
    (runWorkflow owit 1 tiwit (initState 3)).1.status = "success" := by
  have h := improvement_failures_not_fatal owit 1 1 0 ls9
    (by
      simp [improvePlans, modelNames, extractFeedbackForModel, analyzePlans,
        errReport, dget, errPlan, hasCriticalErrors, owit, ls9, allErrPlans])
    (by
      have : calculateQualityScore (analyzePlans (owit.analyzeLLM 1) ls9.cur)
          = 0 := by
        simp [calculateQualityScore, analyzePlans, modelNames, errReport,
          owit, ls9, allErrPlans]
      rw [this]
      norm_num)
    (by
      simp [detectConvergence, calculateQualityScore, analyzePlans,
        modelNames, errReport, owit, ls9, allErrPlans])
  exact ⟨h.1.2, h.2 tiwit (initState 3) rfl
    (by simp [hasCriticalErrors, generatePlans, modelNames, owit,
      successPlan])⟩
